import Mathlib

/-!
# Verification of `get_pole_vector.py`

Shallow embedding of the pole-vector tool. Machine doubles are modelled as
exact reals; `maya.OpenMaya.MVector` becomes the `Vec3` structure below with
the operations the script uses (subtraction, addition, dot product, scalar
multiplication, `length`, `normal`).

Two partiality points of the Python code are made explicit:
* `(line * source_point) / (line * line)` is a Python float division, which
  raises `ZeroDivisionError` when `line * line == 0.0`; this is the
  `zeroDivError` outcome.
* `MVector.normal()` applied to a zero-length vector has no defined result in
  the host vector library (the repository performs no check before calling
  it); this is the `undef` outcome: the call returns, but the value returned
  is not specified by the library.
The `MGlobal.displayInfo` log line is observability only and is not modelled.
-/

noncomputable section

/-- A 3d vector, modelling `maya.OpenMaya.MVector`: a triple of coordinates.
Doubles are modelled as exact reals. -/
@[ext]
structure Vec3 where
  x : ℝ
  y : ℝ
  z : ℝ

namespace Vec3

/-- Componentwise subtraction, `MVector.__sub__`. -/
def sub (a b : Vec3) : Vec3 := ⟨a.x - b.x, a.y - b.y, a.z - b.z⟩

/-- Componentwise addition, `MVector.__add__`. -/
def add (a b : Vec3) : Vec3 := ⟨a.x + b.x, a.y + b.y, a.z + b.z⟩

/-- Componentwise scaling, `MVector * scalar`. -/
def smul (a : Vec3) (k : ℝ) : Vec3 := ⟨a.x * k, a.y * k, a.z * k⟩

/-- Dot product, `MVector * MVector`. -/
def dot (a b : Vec3) : ℝ := a.x * b.x + a.y * b.y + a.z * b.z

/-- Euclidean magnitude, `MVector.length()`. -/
def length (a : Vec3) : ℝ := Real.sqrt (a.dot a)

/-- Normalization, `MVector.normal()`: the vector scaled by the reciprocal of its length.
Only meaningful for nonzero vectors; the embedding of `get_pole_vec_pos`
never relies on its value at a zero vector. -/
def normal (a : Vec3) : Vec3 := a.smul (1 / a.length)

end Vec3

/-- Outcome of a call to `get_pole_vec_pos`. -/
inductive PoleResult where
  /-- The function returns this well-defined vector. -/
  | ok (v : Vec3)
  /-- Python raises `ZeroDivisionError` (float division by `0.0`). -/
  | zeroDivError
  /-- The function returns, but its value comes from `MVector.normal()` on a
  zero-length vector, which the host library leaves undefined. -/
  | undef

/-- The local `closest_point_scale_val` of `get_pole_vec_pos`:
`(line * source_point) / (line * line)`. -/
def closest_point_scale_val (root_pos mid_pos end_pos : Vec3) : ℝ :=
  ((end_pos.sub root_pos).dot (mid_pos.sub root_pos)) /
    ((end_pos.sub root_pos).dot (end_pos.sub root_pos))

/-- The local `closest_mid_point` of `get_pole_vec_pos`:
`(line * closest_point_scale_val) + root_vec`. -/
def closest_mid_point (root_pos mid_pos end_pos : Vec3) : Vec3 :=
  ((end_pos.sub root_pos).smul (closest_point_scale_val root_pos mid_pos end_pos)).add root_pos

/-- The local `total_mag` of `get_pole_vec_pos`:
`(root_to_mid_mag + mid_to_end_mag) * multiplier`. -/
def total_mag (root_pos mid_pos end_pos : Vec3) (multiplier : ℝ) : ℝ :=
  ((mid_pos.sub root_pos).length + (end_pos.sub mid_pos).length) * multiplier

/-- Embedding of `get_pole_vec_pos(root_pos, mid_pos, end_pos, multiplier)`.

The two guards make the partiality of the straight-line Python code explicit:
the division computing `closest_point_scale_val` raises `ZeroDivisionError`
when `line * line == 0.0`, and `(mid_vec - closest_mid_point).normal()` is
undefined in the host library when that vector has zero length (the source
performs no validation at either point). On all other inputs the code
computes `(mid_vec - closest_mid_point).normal() * total_mag + mid_vec`. -/
def get_pole_vec_pos (root_pos mid_pos end_pos : Vec3) (multiplier : ℝ) : PoleResult :=
  if (end_pos.sub root_pos).dot (end_pos.sub root_pos) = 0 then
    .zeroDivError
  else if (mid_pos.sub (closest_mid_point root_pos mid_pos end_pos)).dot
      (mid_pos.sub (closest_mid_point root_pos mid_pos end_pos)) = 0 then
    .undef
  else
    .ok ((((mid_pos.sub (closest_mid_point root_pos mid_pos end_pos)).normal).smul
          (total_mag root_pos mid_pos end_pos multiplier)).add mid_pos)

/-- The spec's §4.1 formula, written from the spec's words (for refinement
against `get_pole_vec_pos`): `t = (line · source) / (line · line)`,
`closest = root + line × t`,
`total_length = (‖mid − root‖ + ‖end − mid‖) × multiplier`,
`pole = mid + normalize(mid - closest) * total_length`. -/
def compute_pole_vector_spec (root_pos mid_pos end_pos : Vec3) (multiplier : ℝ) : Vec3 :=
  let line := end_pos.sub root_pos
  let source := mid_pos.sub root_pos
  let t := (line.dot source) / (line.dot line)
  let closest := root_pos.add (line.smul t)
  let total_length := ((mid_pos.sub root_pos).length + (end_pos.sub mid_pos).length) * multiplier
  mid_pos.add ((mid_pos.sub closest).normal.smul total_length)

/-- True when `p` lies on the (infinite) line through `a` and `b`. -/
def onLine (p a b : Vec3) : Prop :=
  ∃ t : ℝ, p = a.add ((b.sub a).smul t)

/-- Outcome of a call to `main`. -/
inductive MainResult where
  /-- Raised by `cmds.error` when not exactly three joints are selected. -/
  | selectionError
  /-- The call to `get_pole_vec_pos` raised `ZeroDivisionError`. -/
  | zeroDivError
  /-- The call to `get_pole_vec_pos` returned a library-undefined value. -/
  | undefResult
  /-- A locator was created by `place_locator` at this position (the only
  marker-placement side effect of the program). -/
  | placedLocator (position : Vec3)

/-- Embedding of `main`: the selection is the list of world positions of the
selected joints. With exactly three joints, the code queries their positions
and calls `place_locator(get_pole_vec_pos(*positions, 1))`; otherwise
`cmds.error` raises before any locator is created. -/
def main (selection : List Vec3) : MainResult :=
  match selection with
  | [root_pos, mid_pos, end_pos] =>
    match get_pole_vec_pos root_pos mid_pos end_pos 1 with
    | .ok v => .placedLocator v
    | .zeroDivError => .zeroDivError
    | .undef => .undefResult
  | _ => .selectionError

/-! ## Basic vector lemmas -/

theorem Vec3.dot_self_nonneg (a : Vec3) : 0 ≤ a.dot a := by
  unfold Vec3.dot
  nlinarith [mul_self_nonneg a.x, mul_self_nonneg a.y, mul_self_nonneg a.z]

theorem Vec3.dot_self_eq_zero (a : Vec3) : a.dot a = 0 ↔ a = ⟨0, 0, 0⟩ := by
  unfold Vec3.dot
  constructor
  · intro h
    have hx : a.x = 0 := by
      nlinarith [mul_self_nonneg a.x, mul_self_nonneg a.y, mul_self_nonneg a.z]
    have hy : a.y = 0 := by
      nlinarith [mul_self_nonneg a.x, mul_self_nonneg a.y, mul_self_nonneg a.z]
    have hz : a.z = 0 := by
      nlinarith [mul_self_nonneg a.x, mul_self_nonneg a.y, mul_self_nonneg a.z]
    ext <;> simp [hx, hy, hz]
  · intro h
    rw [h]
    norm_num

theorem Vec3.sub_eq_zero_iff (a b : Vec3) : a.sub b = ⟨0, 0, 0⟩ ↔ a = b := by
  unfold Vec3.sub
  constructor
  · intro h
    have hx := congrArg Vec3.x h
    have hy := congrArg Vec3.y h
    have hz := congrArg Vec3.z h
    simp only at hx hy hz
    ext <;> linarith
  · intro h
    rw [h]
    ext <;> simp

theorem Vec3.length_nonneg (a : Vec3) : 0 ≤ a.length :=
  Real.sqrt_nonneg _

theorem Vec3.length_mul_self (a : Vec3) : a.length * a.length = a.dot a :=
  Real.mul_self_sqrt a.dot_self_nonneg

theorem Vec3.length_pos (a : Vec3) (h : a.dot a ≠ 0) : 0 < a.length :=
  Real.sqrt_pos.mpr (lt_of_le_of_ne a.dot_self_nonneg (Ne.symm h))

theorem Vec3.smul_length (a : Vec3) (k : ℝ) : (a.smul k).length = |k| * a.length := by
  unfold Vec3.length Vec3.smul Vec3.dot
  have h : a.x * k * (a.x * k) + a.y * k * (a.y * k) + a.z * k * (a.z * k)
      = k ^ 2 * (a.x * a.x + a.y * a.y + a.z * a.z) := by ring
  rw [h, Real.sqrt_mul (sq_nonneg k), Real.sqrt_sq_eq_abs]

theorem Vec3.normal_length (a : Vec3) (h : a.dot a ≠ 0) : a.normal.length = 1 := by
  have hL : 0 < a.length := a.length_pos h
  unfold Vec3.normal
  rw [a.smul_length, abs_of_nonneg (by positivity), one_div, inv_mul_cancel₀ (ne_of_gt hL)]

theorem Vec3.add_comm' (a b : Vec3) : a.add b = b.add a := by
  unfold Vec3.add
  ext <;> dsimp <;> ring

theorem Vec3.add_dot (a b c : Vec3) : (a.add b).dot c = a.dot c + b.dot c := by
  unfold Vec3.add Vec3.dot
  ring

theorem Vec3.sub_dot (a b c : Vec3) : (a.sub b).dot c = a.dot c - b.dot c := by
  unfold Vec3.sub Vec3.dot
  ring

theorem Vec3.smul_dot (a : Vec3) (k : ℝ) (c : Vec3) : (a.smul k).dot c = k * (a.dot c) := by
  unfold Vec3.smul Vec3.dot
  ring

theorem Vec3.dot_comm (a b : Vec3) : a.dot b = b.dot a := by
  unfold Vec3.dot
  ring

/-! ## Structural lemmas about `get_pole_vec_pos` -/

/-- The offset direction `mid_vec - closest_mid_point` is perpendicular to
`line = end_vec - root_vec` (whenever the projection scalar is defined). -/
theorem line_dot_offset (root_pos mid_pos end_pos : Vec3)
    (h : (end_pos.sub root_pos).dot (end_pos.sub root_pos) ≠ 0) :
    (end_pos.sub root_pos).dot (mid_pos.sub (closest_mid_point root_pos mid_pos end_pos)) = 0 := by
  unfold closest_mid_point closest_point_scale_val at *
  unfold Vec3.sub Vec3.add Vec3.smul Vec3.dot at *
  field_simp
  ring

/-- Dotting `mid_vec - root_vec` with the offset direction gives the squared
length of the offset direction. -/
theorem source_dot_offset (root_pos mid_pos end_pos : Vec3)
    (h : (end_pos.sub root_pos).dot (end_pos.sub root_pos) ≠ 0) :
    (mid_pos.sub root_pos).dot (mid_pos.sub (closest_mid_point root_pos mid_pos end_pos)) =
      (mid_pos.sub (closest_mid_point root_pos mid_pos end_pos)).dot
        (mid_pos.sub (closest_mid_point root_pos mid_pos end_pos)) := by
  unfold closest_mid_point closest_point_scale_val at *
  unfold Vec3.sub Vec3.add Vec3.smul Vec3.dot at *
  field_simp
  ring

/-- Inversion of the `.ok` outcome: the branch conditions that were passed and
the value returned. -/
theorem get_pole_vec_pos_ok (root_pos mid_pos end_pos : Vec3) (multiplier : ℝ) (p : Vec3)
    (h : get_pole_vec_pos root_pos mid_pos end_pos multiplier = .ok p) :
    (end_pos.sub root_pos).dot (end_pos.sub root_pos) ≠ 0 ∧
    (mid_pos.sub (closest_mid_point root_pos mid_pos end_pos)).dot
      (mid_pos.sub (closest_mid_point root_pos mid_pos end_pos)) ≠ 0 ∧
    p = (((mid_pos.sub (closest_mid_point root_pos mid_pos end_pos)).normal).smul
          (total_mag root_pos mid_pos end_pos multiplier)).add mid_pos := by
  unfold get_pole_vec_pos at h
  split_ifs at h with h1 h2
  exact ⟨h1, h2, (PoleResult.ok.injEq _ _ ▸ h).symm⟩

/-- When `mid` is not on the line through `root` and `end` (and the latter are
distinct), the offset direction has nonzero squared length. -/
theorem offset_dot_ne_zero (root_pos mid_pos end_pos : Vec3)
    (_h : (end_pos.sub root_pos).dot (end_pos.sub root_pos) ≠ 0)
    (hm : ¬ onLine mid_pos root_pos end_pos) :
    (mid_pos.sub (closest_mid_point root_pos mid_pos end_pos)).dot
      (mid_pos.sub (closest_mid_point root_pos mid_pos end_pos)) ≠ 0 := by
  intro hz
  apply hm
  have h0 : mid_pos.sub (closest_mid_point root_pos mid_pos end_pos) = ⟨0, 0, 0⟩ :=
    (Vec3.dot_self_eq_zero _).mp hz
  have hmc : mid_pos = closest_mid_point root_pos mid_pos end_pos :=
    (Vec3.sub_eq_zero_iff _ _).mp h0
  refine ⟨closest_point_scale_val root_pos mid_pos end_pos, ?_⟩
  refine hmc.trans ?_
  unfold closest_mid_point
  exact Vec3.add_comm' _ _

/-- Conversely, `mid` on the line through distinct `root` and `end` forces the
offset direction to be the zero vector. -/
theorem offset_dot_eq_zero (root_pos mid_pos end_pos : Vec3)
    (h : (end_pos.sub root_pos).dot (end_pos.sub root_pos) ≠ 0)
    (hm : onLine mid_pos root_pos end_pos) :
    (mid_pos.sub (closest_mid_point root_pos mid_pos end_pos)).dot
      (mid_pos.sub (closest_mid_point root_pos mid_pos end_pos)) = 0 := by
  obtain ⟨t, ht⟩ := hm
  subst ht
  unfold closest_mid_point closest_point_scale_val at *
  unfold Vec3.sub Vec3.add Vec3.smul Vec3.dot at *
  field_simp
  ring

/-! ## Evaluation on concrete inputs -/

theorem sqrt_nine : Real.sqrt 9 = 3 := by
  rw [show (9 : ℝ) = 3 * 3 by norm_num]
  exact Real.sqrt_mul_self (by norm_num)

theorem sqrt_twentyfive : Real.sqrt 25 = 5 := by
  rw [show (25 : ℝ) = 5 * 5 by norm_num]
  exact Real.sqrt_mul_self (by norm_num)

/-- Evaluation of the spec's §8 concrete scenario, for an arbitrary
multiplier: root `(0,0,0)`, mid `(0,1,0)`, end `(2,0,0)`. -/
theorem scenario_eval (k : ℝ) :
    get_pole_vec_pos ⟨0, 0, 0⟩ ⟨0, 1, 0⟩ ⟨2, 0, 0⟩ k
      = PoleResult.ok ⟨0, (1 + Real.sqrt 5) * k + 1, 0⟩ := by
  have hclosest : closest_mid_point ⟨0, 0, 0⟩ ⟨0, 1, 0⟩ ⟨2, 0, 0⟩ = ⟨0, 0, 0⟩ := by
    unfold closest_mid_point closest_point_scale_val Vec3.sub Vec3.dot Vec3.smul Vec3.add
    simp only [Vec3.mk.injEq]
    norm_num
  have hsub : Vec3.sub ⟨0, 1, 0⟩ ⟨0, 0, 0⟩ = (⟨0, 1, 0⟩ : Vec3) := by
    unfold Vec3.sub
    simp only [Vec3.mk.injEq]
    norm_num
  have hn : Vec3.normal ⟨0, 1, 0⟩ = (⟨0, 1, 0⟩ : Vec3) := by
    unfold Vec3.normal Vec3.length Vec3.dot Vec3.smul
    simp only [Vec3.mk.injEq]
    norm_num [Real.sqrt_one]
  have ht : total_mag ⟨0, 0, 0⟩ ⟨0, 1, 0⟩ ⟨2, 0, 0⟩ k = (1 + Real.sqrt 5) * k := by
    unfold total_mag Vec3.length Vec3.sub Vec3.dot
    norm_num [Real.sqrt_one]
  have c1 : ¬ ((Vec3.sub ⟨2, 0, 0⟩ ⟨0, 0, 0⟩).dot (Vec3.sub ⟨2, 0, 0⟩ ⟨0, 0, 0⟩) = 0) := by
    unfold Vec3.sub Vec3.dot
    norm_num
  unfold get_pole_vec_pos
  rw [hclosest, hsub, ht, hn]
  have c2 : ¬ ((⟨0, 1, 0⟩ : Vec3).dot ⟨0, 1, 0⟩ = 0) := by
    unfold Vec3.dot
    norm_num
  rw [if_neg c1, if_neg c2]
  unfold Vec3.smul Vec3.add
  simp only [Vec3.mk.injEq, PoleResult.ok.injEq]
  norm_num

/-- Evaluation on the 3-4-5 configuration root `(0,0,0)`, mid `(4,3,0)`,
end `(8,0,0)`, for an arbitrary multiplier. -/
theorem pythagorean_eval (k : ℝ) :
    get_pole_vec_pos ⟨0, 0, 0⟩ ⟨4, 3, 0⟩ ⟨8, 0, 0⟩ k
      = PoleResult.ok ⟨4, 10 * k + 3, 0⟩ := by
  have hclosest : closest_mid_point ⟨0, 0, 0⟩ ⟨4, 3, 0⟩ ⟨8, 0, 0⟩ = ⟨4, 0, 0⟩ := by
    unfold closest_mid_point closest_point_scale_val Vec3.sub Vec3.dot Vec3.smul Vec3.add
    simp only [Vec3.mk.injEq]
    norm_num
  have hsub : Vec3.sub ⟨4, 3, 0⟩ ⟨4, 0, 0⟩ = (⟨0, 3, 0⟩ : Vec3) := by
    unfold Vec3.sub
    simp only [Vec3.mk.injEq]
    norm_num
  have hn : Vec3.normal ⟨0, 3, 0⟩ = (⟨0, 1, 0⟩ : Vec3) := by
    unfold Vec3.normal Vec3.length Vec3.dot Vec3.smul
    simp only [Vec3.mk.injEq]
    norm_num [sqrt_nine]
  have ht : total_mag ⟨0, 0, 0⟩ ⟨4, 3, 0⟩ ⟨8, 0, 0⟩ k = 10 * k := by
    unfold total_mag Vec3.length Vec3.sub Vec3.dot
    norm_num [sqrt_twentyfive]
  have c1 : ¬ ((Vec3.sub ⟨8, 0, 0⟩ ⟨0, 0, 0⟩).dot (Vec3.sub ⟨8, 0, 0⟩ ⟨0, 0, 0⟩) = 0) := by
    unfold Vec3.sub Vec3.dot
    norm_num
  unfold get_pole_vec_pos
  rw [hclosest, hsub, ht, hn]
  have c2 : ¬ ((⟨0, 3, 0⟩ : Vec3).dot ⟨0, 3, 0⟩ = 0) := by
    unfold Vec3.dot
    norm_num
  rw [if_neg c1, if_neg c2]
  unfold Vec3.smul Vec3.add
  simp only [Vec3.mk.injEq, PoleResult.ok.injEq]
  norm_num

/-- Distinct root and end give the line direction a nonzero squared length. -/
theorem line_dot_ne_zero (root_pos end_pos : Vec3) (hr : root_pos ≠ end_pos) :
    (end_pos.sub root_pos).dot (end_pos.sub root_pos) ≠ 0 := by
  intro h0
  exact hr (((Vec3.sub_eq_zero_iff _ _).mp ((Vec3.dot_self_eq_zero _).mp h0)).symm)

theorem Vec3.add_sub_cancel' (a b : Vec3) : (a.add b).sub b = a := by
  unfold Vec3.add Vec3.sub
  ext <;> dsimp <;> ring

theorem Vec3.normal_dot (a b : Vec3) : a.normal.dot b = (1 / a.length) * (a.dot b) := by
  unfold Vec3.normal
  rw [Vec3.smul_dot]

/-- The spec's `closest` (`root + line × t`) is the code's `closest_mid_point`
(`line × t + root`), written with the addition flipped. -/
theorem closest_comm (root_pos mid_pos end_pos : Vec3) :
    root_pos.add ((end_pos.sub root_pos).smul
      (((end_pos.sub root_pos).dot (mid_pos.sub root_pos)) /
        ((end_pos.sub root_pos).dot (end_pos.sub root_pos))))
      = closest_mid_point root_pos mid_pos end_pos := by
  unfold closest_mid_point closest_point_scale_val
  exact Vec3.add_comm' _ _

/-! ## Claim theorems -/

/-- C1: when root and end coincide, `line * line == 0.0` and the Python float
division computing `closest_point_scale_val` raises (`ZeroDivisionError`, the
"or equivalent" of the spec's `InvalidInputError`): for every such degenerate
input the function raises instead of returning a value. -/
theorem C1_root_eq_end_raises (root_pos mid_pos : Vec3) (k : ℝ) :
    get_pole_vec_pos root_pos mid_pos root_pos k = PoleResult.zeroDivError := by
  have h : (root_pos.sub root_pos).dot (root_pos.sub root_pos) = 0 := by
    unfold Vec3.sub Vec3.dot
    ring
  unfold get_pole_vec_pos
  rw [if_pos h]

/-- C2: for every non-degenerate input (root distinct from end, mid off the
root–end line) and every multiplier, the code returns exactly the spec's
formula `mid + normalize(mid - closest) * total_length` with
`closest = root + line × ((line · source)/(line · line))` and
`total_length = (norm(mid - root) + norm(end - mid)) × multiplier`. -/
theorem C2_matches_spec_formula (root_pos mid_pos end_pos : Vec3) (k : ℝ)
    (hr : root_pos ≠ end_pos) (hm : ¬ onLine mid_pos root_pos end_pos) :
    get_pole_vec_pos root_pos mid_pos end_pos k
      = PoleResult.ok (compute_pole_vector_spec root_pos mid_pos end_pos k) := by
  have h1 := line_dot_ne_zero root_pos end_pos hr
  have h2 := offset_dot_ne_zero root_pos mid_pos end_pos h1 hm
  unfold get_pole_vec_pos
  rw [if_neg h1, if_neg h2]
  congr 1
  simp only [compute_pole_vector_spec]
  rw [closest_comm]
  rw [Vec3.add_comm' mid_pos]
  unfold total_mag
  rfl

/-- Witness for C2 at the spec's concrete scenario. -/
theorem C2_matches_spec_formula_witness :
    get_pole_vec_pos ⟨0, 0, 0⟩ ⟨0, 1, 0⟩ ⟨2, 0, 0⟩ 1
      = PoleResult.ok (compute_pole_vector_spec ⟨0, 0, 0⟩ ⟨0, 1, 0⟩ ⟨2, 0, 0⟩ 1) := by
  refine C2_matches_spec_formula ⟨0, 0, 0⟩ ⟨0, 1, 0⟩ ⟨2, 0, 0⟩ 1 ?_ ?_
  · intro h
    have hx := congrArg Vec3.x h
    norm_num at hx
  · rintro ⟨t, ht⟩
    have hy := congrArg Vec3.y ht
    unfold Vec3.add Vec3.smul Vec3.sub at hy
    norm_num at hy

/-- C5 counterexample: with mid exactly on the root–end line the function
does not fail with an `InvalidInputError` and does not fall back to a fixed
documented axis: it normalizes a zero-length vector, whose value the host
library leaves undefined, and returns that undefined result. -/
theorem C5_counterexample :
    onLine ⟨1, 0, 0⟩ ⟨0, 0, 0⟩ ⟨2, 0, 0⟩ ∧
    get_pole_vec_pos ⟨0, 0, 0⟩ ⟨1, 0, 0⟩ ⟨2, 0, 0⟩ 1 = PoleResult.undef := by
  constructor
  · refine ⟨1 / 2, ?_⟩
    unfold Vec3.add Vec3.smul Vec3.sub
    simp only [Vec3.mk.injEq]
    norm_num
  · have hclosest : closest_mid_point ⟨0, 0, 0⟩ ⟨1, 0, 0⟩ ⟨2, 0, 0⟩ = ⟨1, 0, 0⟩ := by
      unfold closest_mid_point closest_point_scale_val Vec3.sub Vec3.dot Vec3.smul Vec3.add
      simp only [Vec3.mk.injEq]
      norm_num
    have c1 : ¬ ((Vec3.sub ⟨2, 0, 0⟩ ⟨0, 0, 0⟩).dot (Vec3.sub ⟨2, 0, 0⟩ ⟨0, 0, 0⟩) = 0) := by
      unfold Vec3.sub Vec3.dot
      norm_num
    unfold get_pole_vec_pos
    rw [hclosest]
    have c2 : (Vec3.sub ⟨1, 0, 0⟩ ⟨1, 0, 0⟩).dot (Vec3.sub ⟨1, 0, 0⟩ ⟨1, 0, 0⟩) = 0 := by
      unfold Vec3.sub Vec3.dot
      norm_num
    rw [if_neg c1, if_pos c2]

/-- C5 amended: when mid lies exactly on the root–end line (root and end
distinct), the code performs no validation: it reaches the normalization of a
zero-length vector, whose result the host library leaves undefined, and
returns without raising. -/
theorem C5_no_validation (root_pos mid_pos end_pos : Vec3) (k : ℝ)
    (hr : root_pos ≠ end_pos) (hm : onLine mid_pos root_pos end_pos) :
    get_pole_vec_pos root_pos mid_pos end_pos k = PoleResult.undef := by
  have h1 := line_dot_ne_zero root_pos end_pos hr
  unfold get_pole_vec_pos
  rw [if_neg h1, if_pos (offset_dot_eq_zero root_pos mid_pos end_pos h1 hm)]

/-- Witness for the amended C5. -/
theorem C5_no_validation_witness :
    get_pole_vec_pos ⟨0, 0, 0⟩ ⟨1, 0, 0⟩ ⟨4, 0, 0⟩ 2 = PoleResult.undef := by
  refine C5_no_validation ⟨0, 0, 0⟩ ⟨1, 0, 0⟩ ⟨4, 0, 0⟩ 2 ?_ ⟨1 / 4, ?_⟩
  · intro h
    have hx := congrArg Vec3.x h
    norm_num at hx
  · unfold Vec3.add Vec3.smul Vec3.sub
    simp only [Vec3.mk.injEq]
    norm_num

/-- C7: a selection whose joint count is not three makes `main` fail with the
`cmds.error` selection error, and no locator is ever placed on that path. -/
theorem C7_selection_error (selection : List Vec3) (h : selection.length ≠ 3) :
    main selection = MainResult.selectionError ∧
    ∀ p, main selection ≠ MainResult.placedLocator p := by
  have hm : main selection = MainResult.selectionError := by
    match selection with
    | [] => rfl
    | [_] => rfl
    | [_, _] => rfl
    | [_, _, _] => simp at h
    | _ :: _ :: _ :: _ :: _ => rfl
  refine ⟨hm, fun p hp => ?_⟩
  rw [hm] at hp
  exact MainResult.noConfusion hp

/-- Witness for C7 with a two-joint selection. -/
theorem C7_selection_error_witness :
    main [⟨0, 0, 0⟩, ⟨1, 1, 1⟩] = MainResult.selectionError ∧
    ∀ p, main [⟨0, 0, 0⟩, ⟨1, 1, 1⟩] ≠ MainResult.placedLocator p :=
  C7_selection_error [⟨0, 0, 0⟩, ⟨1, 1, 1⟩] (by simp)

theorem sqrt_hundred : Real.sqrt 100 = 10 := by
  rw [show (100 : ℝ) = 10 * 10 by norm_num]
  exact Real.sqrt_mul_self (by norm_num)

/-- C3 counterexample: with multiplier `-1` on the 3-4-5 configuration the
returned point is at distance `10` from mid, not `(5 + 5) × (-1) = -10` as
the claim's formula demands for every multiplier. -/
theorem C3_counterexample :
    get_pole_vec_pos ⟨0, 0, 0⟩ ⟨4, 3, 0⟩ ⟨8, 0, 0⟩ (-1) = PoleResult.ok ⟨4, -7, 0⟩ ∧
    ¬ (((⟨4, -7, 0⟩ : Vec3).sub ⟨4, 3, 0⟩).length
        = (((⟨4, 3, 0⟩ : Vec3).sub ⟨0, 0, 0⟩).length
            + ((⟨8, 0, 0⟩ : Vec3).sub ⟨4, 3, 0⟩).length) * (-1)) := by
  constructor
  · rw [pythagorean_eval (-1)]
    simp only [PoleResult.ok.injEq, Vec3.mk.injEq]
    norm_num
  · have hd : (⟨4, -7, 0⟩ : Vec3).sub ⟨4, 3, 0⟩ = (⟨0, -10, 0⟩ : Vec3) := by
      unfold Vec3.sub
      simp only [Vec3.mk.injEq]
      norm_num
    have hlen : ((⟨0, -10, 0⟩ : Vec3)).length = 10 := by
      unfold Vec3.length Vec3.dot
      norm_num [sqrt_hundred]
    have h1 : (⟨4, 3, 0⟩ : Vec3).sub ⟨0, 0, 0⟩ = (⟨4, 3, 0⟩ : Vec3) := by
      unfold Vec3.sub
      simp only [Vec3.mk.injEq]
      norm_num
    have h2 : (⟨8, 0, 0⟩ : Vec3).sub ⟨4, 3, 0⟩ = (⟨4, -3, 0⟩ : Vec3) := by
      unfold Vec3.sub
      simp only [Vec3.mk.injEq]
      norm_num
    have h1l : ((⟨4, 3, 0⟩ : Vec3)).length = 5 := by
      unfold Vec3.length Vec3.dot
      norm_num [sqrt_twentyfive]
    have h2l : ((⟨4, -3, 0⟩ : Vec3)).length = 5 := by
      unfold Vec3.length Vec3.dot
      norm_num [sqrt_twentyfive]
    rw [hd, hlen, h1, h2, h1l, h2l]
    norm_num

/-- C3 amended: on every input on which the code returns a value, the
distance from that value to mid is `(‖mid − root‖ + ‖end − mid‖) × |multiplier|`
(the distance is a magnitude, so a negative multiplier contributes its
absolute value; for nonnegative multipliers this is the claim's formula). -/
theorem C3_distance (root_pos mid_pos end_pos : Vec3) (k : ℝ) (p : Vec3)
    (h : get_pole_vec_pos root_pos mid_pos end_pos k = PoleResult.ok p) :
    (p.sub mid_pos).length
      = ((mid_pos.sub root_pos).length + (end_pos.sub mid_pos).length) * |k| := by
  obtain ⟨h1, h2, hp⟩ := get_pole_vec_pos_ok root_pos mid_pos end_pos k p h
  subst hp
  rw [Vec3.add_sub_cancel', Vec3.smul_length, Vec3.normal_length _ h2, mul_one]
  unfold total_mag
  rw [abs_mul, abs_of_nonneg (add_nonneg (Vec3.length_nonneg _) (Vec3.length_nonneg _))]

/-- Witness for the amended C3 at the spec's concrete scenario. -/
theorem C3_distance_witness :
    ((Vec3.sub ⟨0, (1 + Real.sqrt 5) * 1 + 1, 0⟩ ⟨0, 1, 0⟩).length
      = ((Vec3.sub ⟨0, 1, 0⟩ ⟨0, 0, 0⟩).length
          + (Vec3.sub ⟨2, 0, 0⟩ ⟨0, 1, 0⟩).length) * |(1 : ℝ)|) :=
  C3_distance ⟨0, 0, 0⟩ ⟨0, 1, 0⟩ ⟨2, 0, 0⟩ 1 ⟨0, (1 + Real.sqrt 5) * 1 + 1, 0⟩
    (scenario_eval 1)

/-- C4 counterexample: the 3-4-5 configuration is non-degenerate and the
multiplier `-3/10` is nonzero, yet the returned pole position `(4,0,0)` lies
on the line through root `(0,0,0)` and end `(8,0,0)`. -/
theorem C4_counterexample :
    (⟨0, 0, 0⟩ : Vec3) ≠ ⟨8, 0, 0⟩ ∧
    ¬ onLine ⟨4, 3, 0⟩ ⟨0, 0, 0⟩ ⟨8, 0, 0⟩ ∧
    (-3 / 10 : ℝ) ≠ 0 ∧
    get_pole_vec_pos ⟨0, 0, 0⟩ ⟨4, 3, 0⟩ ⟨8, 0, 0⟩ (-3 / 10) = PoleResult.ok ⟨4, 0, 0⟩ ∧
    onLine ⟨4, 0, 0⟩ ⟨0, 0, 0⟩ ⟨8, 0, 0⟩ := by
  refine ⟨?_, ?_, by norm_num, ?_, ⟨1 / 2, ?_⟩⟩
  · intro h
    have hx := congrArg Vec3.x h
    norm_num at hx
  · rintro ⟨t, ht⟩
    have hy := congrArg Vec3.y ht
    unfold Vec3.add Vec3.smul Vec3.sub at hy
    norm_num at hy
  · rw [pythagorean_eval (-3 / 10)]
    simp only [PoleResult.ok.injEq, Vec3.mk.injEq]
    norm_num
  · unfold Vec3.add Vec3.smul Vec3.sub
    simp only [Vec3.mk.injEq]
    norm_num

/-- C4 amended: for every nonnegative multiplier, whenever the code returns a
pole position it does not lie on the line through root and end (so the pole,
root and end are never collinear); negative multipliers can pull the pole
back across the axis, which the counterexample exhibits. -/
theorem C4_not_collinear (root_pos mid_pos end_pos : Vec3) (k : ℝ) (p : Vec3)
    (hk : 0 ≤ k)
    (h : get_pole_vec_pos root_pos mid_pos end_pos k = PoleResult.ok p) :
    ¬ onLine p root_pos end_pos := by
  obtain ⟨h1, h2, hp⟩ := get_pole_vec_pos_ok root_pos mid_pos end_pos k p h
  subst hp
  rintro ⟨s, hs⟩
  have hD : 0 < (mid_pos.sub (closest_mid_point root_pos mid_pos end_pos)).dot
      (mid_pos.sub (closest_mid_point root_pos mid_pos end_pos)) :=
    lt_of_le_of_ne (Vec3.dot_self_nonneg _) (Ne.symm h2)
  have hLpos : 0 < (mid_pos.sub (closest_mid_point root_pos mid_pos end_pos)).length :=
    Vec3.length_pos _ h2
  have htot : 0 ≤ total_mag root_pos mid_pos end_pos k :=
    mul_nonneg (add_nonneg (Vec3.length_nonneg _) (Vec3.length_nonneg _)) hk
  have hperp := line_dot_offset root_pos mid_pos end_pos h1
  have hsrc := source_dot_offset root_pos mid_pos end_pos h1
  have e1 := congrArg (fun v => v.dot (mid_pos.sub (closest_mid_point root_pos mid_pos end_pos))) hs
  simp only [Vec3.add_dot, Vec3.smul_dot, Vec3.normal_dot] at e1
  rw [hperp, mul_zero, add_zero] at e1
  rw [Vec3.sub_dot] at hsrc
  have hfrac : 0 ≤ total_mag root_pos mid_pos end_pos k *
      (1 / (mid_pos.sub (closest_mid_point root_pos mid_pos end_pos)).length *
        ((mid_pos.sub (closest_mid_point root_pos mid_pos end_pos)).dot
          (mid_pos.sub (closest_mid_point root_pos mid_pos end_pos)))) :=
    mul_nonneg htot (mul_nonneg (by positivity) (le_of_lt hD))
  linarith [e1, hsrc, hfrac, hD]

/-- Witness for the amended C4 at the spec's concrete scenario. -/
theorem C4_not_collinear_witness :
    ¬ onLine ⟨0, (1 + Real.sqrt 5) * 1 + 1, 0⟩ ⟨0, 0, 0⟩ ⟨2, 0, 0⟩ :=
  C4_not_collinear ⟨0, 0, 0⟩ ⟨0, 1, 0⟩ ⟨2, 0, 0⟩ 1 ⟨0, (1 + Real.sqrt 5) * 1 + 1, 0⟩
    (by norm_num) (scenario_eval 1)

/-- C8: the scaling law. Whenever the code returns a value at multiplier `1`
and at multiplier `k` (the two calls succeed or fail together, since neither
guard involves the multiplier), the value at `k` is
`mid + k × (value at 1 − mid)`. -/
theorem C8_scaling (root_pos mid_pos end_pos : Vec3) (k : ℝ) (p1 pk : Vec3)
    (h1 : get_pole_vec_pos root_pos mid_pos end_pos 1 = PoleResult.ok p1)
    (hk : get_pole_vec_pos root_pos mid_pos end_pos k = PoleResult.ok pk) :
    pk = mid_pos.add ((p1.sub mid_pos).smul k) := by
  obtain ⟨_, _, hp1⟩ := get_pole_vec_pos_ok root_pos mid_pos end_pos 1 p1 h1
  obtain ⟨_, _, hpk⟩ := get_pole_vec_pos_ok root_pos mid_pos end_pos k pk hk
  subst hp1 hpk
  rw [Vec3.add_sub_cancel']
  unfold total_mag Vec3.smul Vec3.add
  ext <;> dsimp <;> ring

/-- Witness for C8 at the spec's concrete scenario with `k = 2`. -/
theorem C8_scaling_witness :
    (⟨0, (1 + Real.sqrt 5) * 2 + 1, 0⟩ : Vec3)
      = Vec3.add ⟨0, 1, 0⟩
          ((Vec3.sub ⟨0, (1 + Real.sqrt 5) * 1 + 1, 0⟩ ⟨0, 1, 0⟩).smul 2) :=
  C8_scaling ⟨0, 0, 0⟩ ⟨0, 1, 0⟩ ⟨2, 0, 0⟩ 2
    ⟨0, (1 + Real.sqrt 5) * 1 + 1, 0⟩ ⟨0, (1 + Real.sqrt 5) * 2 + 1, 0⟩
    (scenario_eval 1) (scenario_eval 2)

/-- C9: the spec's concrete scenario. With root `(0,0,0)`, mid `(0,1,0)`,
end `(2,0,0)` and multiplier `1`: `line = (2,0,0)`, `t = 0`,
`closest = (0,0,0)`, `total = 1 + √5`, `offset_dir = (0,1,0)`, and the
returned point is `(0, 2 + √5, 0)`, whose y-coordinate is within `1e-4` of
`4.236` (and x and z are exactly `0`). -/
theorem C9_concrete_scenario :
    Vec3.sub ⟨2, 0, 0⟩ ⟨0, 0, 0⟩ = (⟨2, 0, 0⟩ : Vec3) ∧
    closest_point_scale_val ⟨0, 0, 0⟩ ⟨0, 1, 0⟩ ⟨2, 0, 0⟩ = 0 ∧
    closest_mid_point ⟨0, 0, 0⟩ ⟨0, 1, 0⟩ ⟨2, 0, 0⟩ = ⟨0, 0, 0⟩ ∧
    total_mag ⟨0, 0, 0⟩ ⟨0, 1, 0⟩ ⟨2, 0, 0⟩ 1 = 1 + Real.sqrt 5 ∧
    Vec3.normal (Vec3.sub ⟨0, 1, 0⟩ (closest_mid_point ⟨0, 0, 0⟩ ⟨0, 1, 0⟩ ⟨2, 0, 0⟩))
      = (⟨0, 1, 0⟩ : Vec3) ∧
    get_pole_vec_pos ⟨0, 0, 0⟩ ⟨0, 1, 0⟩ ⟨2, 0, 0⟩ 1
      = PoleResult.ok ⟨0, 2 + Real.sqrt 5, 0⟩ ∧
    |(2 + Real.sqrt 5) - 4.236| < 1 / 10000 := by
  have hclosest : closest_mid_point ⟨0, 0, 0⟩ ⟨0, 1, 0⟩ ⟨2, 0, 0⟩ = ⟨0, 0, 0⟩ := by
    unfold closest_mid_point closest_point_scale_val Vec3.sub Vec3.dot Vec3.smul Vec3.add
    simp only [Vec3.mk.injEq]
    norm_num
  refine ⟨?_, ?_, hclosest, ?_, ?_, ?_, ?_⟩
  · unfold Vec3.sub
    simp only [Vec3.mk.injEq]
    norm_num
  · unfold closest_point_scale_val Vec3.sub Vec3.dot
    norm_num
  · unfold total_mag Vec3.length Vec3.sub Vec3.dot
    norm_num [Real.sqrt_one]
  · rw [hclosest]
    have hsub : Vec3.sub ⟨0, 1, 0⟩ ⟨0, 0, 0⟩ = (⟨0, 1, 0⟩ : Vec3) := by
      unfold Vec3.sub
      simp only [Vec3.mk.injEq]
      norm_num
    rw [hsub]
    unfold Vec3.normal Vec3.length Vec3.dot Vec3.smul
    simp only [Vec3.mk.injEq]
    norm_num [Real.sqrt_one]
  · rw [scenario_eval 1]
    simp only [PoleResult.ok.injEq, Vec3.mk.injEq]
    exact ⟨trivial, by ring, trivial⟩
  · rw [abs_lt]
    constructor
    · have h5 : (2.2359 : ℝ) < Real.sqrt 5 :=
        (Real.lt_sqrt (by norm_num)).mpr (by norm_num)
      linarith
    · have h5 : Real.sqrt 5 < (2.2361 : ℝ) :=
        (Real.sqrt_lt' (by norm_num)).mpr (by norm_num)
      linarith

/-- C10: whenever the code returns a pole position, the offset from mid to it
is exactly perpendicular to the root–end axis:
`(result − mid) · (end − root) = 0`. -/
theorem C10_offset_perpendicular (root_pos mid_pos end_pos : Vec3) (k : ℝ) (p : Vec3)
    (h : get_pole_vec_pos root_pos mid_pos end_pos k = PoleResult.ok p) :
    (p.sub mid_pos).dot (end_pos.sub root_pos) = 0 := by
  obtain ⟨h1, _, hp⟩ := get_pole_vec_pos_ok root_pos mid_pos end_pos k p h
  subst hp
  rw [Vec3.add_sub_cancel', Vec3.smul_dot, Vec3.normal_dot,
    Vec3.dot_comm (mid_pos.sub (closest_mid_point root_pos mid_pos end_pos))
      (end_pos.sub root_pos),
    line_dot_offset root_pos mid_pos end_pos h1, mul_zero, mul_zero]

/-- Witness for C10 at the spec's concrete scenario. -/
theorem C10_offset_perpendicular_witness :
    (Vec3.sub ⟨0, (1 + Real.sqrt 5) * 1 + 1, 0⟩ ⟨0, 1, 0⟩).dot
      (Vec3.sub ⟨2, 0, 0⟩ ⟨0, 0, 0⟩) = 0 :=
  C10_offset_perpendicular ⟨0, 0, 0⟩ ⟨0, 1, 0⟩ ⟨2, 0, 0⟩ 1
    ⟨0, (1 + Real.sqrt 5) * 1 + 1, 0⟩ (scenario_eval 1)
